import Mathlib

/-!
Shallow embedding of the generational arena from `src/src/lib.rs`.

Conventions of the embedding:
* `usize` positions and the `u64` generation counter are modelled as `Nat`
  (no claim depends on fixed-width wraparound).
* A Rust `panic!` / failed `assert!` / out-of-bounds `Vec` indexing is
  modelled by returning `none` from the operation; `some` carries the
  post-state and the Rust return value.
* `get_mut` performs no structural mutation in the source (it only hands
  out a reference), so it is embedded, like `get`, as a pure lookup.
-/

namespace GArena

/-- Source `enum Entry<T>`: a slot is `Free { next_free }` or
`Occupied { generation, value }`. -/
inductive Entry (T : Type) where
  | Free (next_free : Option Nat)
  | Occupied (generation : Nat) (value : T)
deriving DecidableEq

/-- Source `struct Arena<T>`: slot vector, arena-wide generation counter, head of
the intrusive free list. -/
structure Arena (T : Type) where
  items : List (Entry T)
  generation : Nat
  free_list_head : Option Nat
deriving DecidableEq

/-- Source `struct Index`: `(index, generation)` handle. -/
structure Index where
  index : Nat
  generation : Nat
deriving DecidableEq

/-- Source `const DEFAULT_CAPACITY: usize = 4`. -/
def DEFAULT_CAPACITY : Nat := 4

/-- Result of `try_insert`: `Ok(Index)` or `Err(value)` (the value handed
back on a full arena). -/
inductive InsertResult (T : Type) where
  | ok (idx : Index)
  | full (value : T)
deriving DecidableEq

variable {T : Type}

/-- Source `Arena::capacity`: `self.items.len()`. -/
def Arena.capacity (a : Arena T) : Nat := a.items.length

/-- Source `Arena::reserve`: appends `additional_capacity` entries for positions
`start..end`, each `Free` pointing at the next position, the last pointing
at the old `free_list_head`; then unconditionally sets
`free_list_head = Some(start)`. -/
def Arena.reserve (a : Arena T) (additional_capacity : Nat) : Arena T :=
  let start := a.items.length
  let stop := a.items.length + additional_capacity
  let old_head := a.free_list_head
  { items := a.items ++ (List.range' start additional_capacity).map (fun i =>
      if i = stop - 1 then Entry.Free old_head else Entry.Free (some (i + 1)))
    generation := a.generation
    free_list_head := some start }

/-- Source `Arena::with_capacity`: `assert!(n > 0)` then reserve `n` starting from
an empty arena (generation 0, no free list head). -/
def Arena.with_capacity (n : Nat) : Option (Arena T) :=
  if 0 < n then
    some (Arena.reserve { items := [], generation := 0, free_list_head := none } n)
  else none

/-- Source `Arena::new`: `with_capacity(DEFAULT_CAPACITY)`. -/
def Arena.new : Option (Arena T) := Arena.with_capacity DEFAULT_CAPACITY

/-- Source `Arena::try_insert`: pop the free-list head.  `none` models the two
fatal cases (`self.items[i]` out of bounds, `panic!("corrupt free list")`
on an occupied head). -/
def Arena.try_insert (a : Arena T) (value : T) : Option (Arena T × InsertResult T) :=
  match a.free_list_head with
  | none => some (a, .full value)
  | some i =>
    match a.items.get? i with
    | none => none
    | some (Entry.Occupied _ _) => none
    | some (Entry.Free next_free) =>
      some ({ items := a.items.set i (Entry.Occupied a.generation value)
              generation := a.generation
              free_list_head := next_free },
            .ok ⟨i, a.generation⟩)

/-- Source `Arena::insert`: `try_insert`, and on `Err` reserve `self.items.len()`
additional slots and retry once (`expect` on a second failure is a panic,
modelled as `none`). -/
def Arena.insert (a : Arena T) (value : T) : Option (Arena T × Index) :=
  match a.try_insert value with
  | none => none
  | some (a1, .ok i) => some (a1, i)
  | some (a1, .full v) =>
    match (a1.reserve a1.items.length).try_insert v with
    | some (a2, .ok i) => some (a2, i)
    | _ => none

/-- Source `Arena::remove`: `assert!(i.index < len)`, `mem::replace` the slot with
`Free { next_free: free_list_head }`, then on generation match keep the
replacement, bump the generation and point the free list at the slot;
otherwise write the original entry back and return `None`. -/
def Arena.remove (a : Arena T) (i : Index) : Option (Arena T × Option T) :=
  match a.items.get? i.index with
  | none => none
  | some entry =>
    let replaced := a.items.set i.index (Entry.Free a.free_list_head)
    match entry with
    | Entry.Occupied generation value =>
      if generation = i.generation then
        some ({ items := replaced
                generation := a.generation + 1
                free_list_head := some i.index }, some value)
      else
        some ({ a with items := replaced.set i.index (Entry.Occupied generation value) }, none)
    | Entry.Free nf =>
      some ({ a with items := replaced.set i.index (Entry.Free nf) }, none)

/-- Source `Arena::get`: `assert!` in bounds, then return the value iff the slot
is `Occupied` with the index's generation. -/
def Arena.get (a : Arena T) (i : Index) : Option (Option T) :=
  match a.items.get? i.index with
  | none => none
  | some (Entry.Occupied generation value) =>
    if generation = i.generation then some (some value) else some none
  | some (Entry.Free _) => some none

/-- Source `Arena::get_mut`: same resolution as `get` (see the header comment). -/
def Arena.get_mut (a : Arena T) (i : Index) : Option (Option T) :=
  match a.items.get? i.index with
  | none => none
  | some (Entry.Occupied generation value) =>
    if generation = i.generation then some (some value) else some none
  | some (Entry.Free _) => some none

/-- Source `Arena::contains`: `self.get(i).is_some()` (inherits `get`'s panic). -/
def Arena.contains (a : Arena T) (i : Index) : Option Bool :=
  (a.get i).map Option.isSome

/-- Is this slot `Free`? -/
def isFreeE : Entry T → Bool
  | .Free _ => true
  | .Occupied _ _ => false

/-- Is this (optional) slot `Free`? -/
def isFreeO : Option (Entry T) → Bool
  | some (.Free _) => true
  | _ => false

/-- Positions of the `Free` slots, in increasing order. -/
def freePositions (items : List (Entry T)) : List Nat :=
  (List.range items.length).filter (fun p => isFreeO (items.get? p))

/-- Number of live (`Occupied`) slots. -/
def liveCount (items : List (Entry T)) : Nat :=
  items.countP (fun e => !(isFreeE e))

/-- Predicate `FreeChain items head l`: walking the free list from `head` and
following `next_free` links visits exactly the positions in `l`, in order,
each in bounds and `Free`, without revisits, and terminates at `none`. -/
inductive FreeChain (items : List (Entry T)) : Option Nat → List Nat → Prop where
  | nil : FreeChain items none []
  | cons {i : Nat} {nf : Option Nat} {l : List Nat} :
      items.get? i = some (Entry.Free nf) → i ∉ l →
      FreeChain items nf l → FreeChain items (some i) (i :: l)

theorem FreeChain.nodup {items : List (Entry T)} {h : Option Nat} {l : List Nat}
    (c : FreeChain items h l) : l.Nodup := by
  induction c with
  | nil => exact List.nodup_nil
  | cons hget hnm _ ih => exact List.nodup_cons.2 ⟨hnm, ih⟩

theorem FreeChain.mem_free {items : List (Entry T)} {h : Option Nat} {l : List Nat}
    (c : FreeChain items h l) {p : Nat} (hp : p ∈ l) :
    ∃ nf, items.get? p = some (Entry.Free nf) := by
  induction c with
  | nil => cases hp
  | cons hget _ _ ih =>
    rcases List.mem_cons.1 hp with rfl | hp
    · exact ⟨_, hget⟩
    · exact ih hp

theorem FreeChain.mem_lt {items : List (Entry T)} {h : Option Nat} {l : List Nat}
    (c : FreeChain items h l) {p : Nat} (hp : p ∈ l) : p < items.length := by
  obtain ⟨nf, hg⟩ := c.mem_free hp
  obtain ⟨hlt, -⟩ := List.get?_eq_some.1 hg
  exact hlt

theorem FreeChain.append_right {items extra : List (Entry T)} {h : Option Nat}
    {l : List Nat} (c : FreeChain items h l) : FreeChain (items ++ extra) h l := by
  induction c with
  | nil => exact .nil
  | cons hget hnm _ ih =>
    refine .cons ?_ hnm ih
    rw [List.get?_append]
    · exact hget
    · exact (List.get?_eq_some.1 hget).1

theorem FreeChain.set_of_not_mem {items : List (Entry T)} {h : Option Nat}
    {l : List Nat} (c : FreeChain items h l) {j : Nat} (hj : j ∉ l) (e : Entry T) :
    FreeChain (items.set j e) h l := by
  induction c with
  | nil => exact .nil
  | cons hget hnm _ ih =>
    rename_i i nf l' _
    have hne : j ≠ i := fun hji => hj (hji ▸ List.mem_cons_self i l')
    refine .cons ?_ hnm (ih fun hm => hj (List.mem_cons_of_mem _ hm))
    rw [List.get?_set_ne _ _ hne]
    exact hget

theorem map_get?_range {A : Type} (items : List A) :
    (List.range items.length).map items.get? = items.map some := by
  induction items with
  | nil => rfl
  | cons a l ih =>
    show (List.range (l.length + 1)).map (a :: l).get? = some a :: l.map some
    rw [List.range_succ_eq_map, List.map_cons, List.map_map]
    refine congrArg (some a :: ·) ?_
    calc (List.range l.length).map ((a :: l).get? ∘ Nat.succ)
        = (List.range l.length).map l.get? := by
          refine List.map_congr_left fun i _ => ?_
          rfl
      _ = l.map some := ih

theorem freePositions_length (items : List (Entry T)) :
    (freePositions items).length = items.countP isFreeE := by
  have h1 : (freePositions items).length
      = (List.range items.length).countP (fun p => isFreeO (items.get? p)) :=
    (List.countP_eq_length_filter _ _).symm
  have h2 : (List.range items.length).countP (fun p => isFreeO (items.get? p))
      = ((List.range items.length).map items.get?).countP isFreeO := by
    rw [List.countP_map]
    rfl
  have h3 : ((List.range items.length).map items.get?).countP isFreeO
      = (items.map some).countP isFreeO := by rw [map_get?_range]
  have h4 : (items.map some).countP isFreeO = items.countP isFreeE := by
    rw [List.countP_map]
    refine List.countP_congr fun e _ => ?_
    cases e <;> rfl
  rw [h1, h2, h3, h4]

theorem countP_isFreeE_eq (items : List (Entry T)) :
    items.countP isFreeE = items.length - liveCount items := by
  have h := List.length_eq_countP_add_countP isFreeE items
  have h2 : items.countP (fun a => decide ¬isFreeE a = true) = liveCount items := by
    refine List.countP_congr fun e _ => ?_
    cases e <;> rfl
  omega

theorem mem_freePositions {items : List (Entry T)} {p : Nat} :
    p ∈ freePositions items ↔ ∃ nf, items.get? p = some (Entry.Free nf) := by
  constructor
  · intro hp
    obtain ⟨-, hfree⟩ := List.mem_filter.1 hp
    cases hg : items.get? p with
    | none => rw [hg] at hfree; cases hfree
    | some e =>
      cases e with
      | Free nf => exact ⟨nf, rfl⟩
      | Occupied g v => rw [hg] at hfree; cases hfree
  · rintro ⟨nf, hg⟩
    refine List.mem_filter.2 ⟨List.mem_range.2 (List.get?_eq_some.1 hg).1, ?_⟩
    rw [hg]
    rfl

/-- The free list is well formed: some walk visits exactly the `Free`
slots. -/
def FreeListOk (a : Arena T) : Prop :=
  ∃ l, FreeChain a.items a.free_list_head l ∧
    ∀ p, p ∈ l ↔ ∃ nf, a.items.get? p = some (Entry.Free nf)

/-- The reachable-state invariant: nonempty storage and a well-formed free
list. -/
def ArenaInv (a : Arena T) : Prop :=
  1 ≤ a.items.length ∧ FreeListOk a

theorem set_get?_self {A : Type} {l : List A} {n : Nat} {x : A}
    (h : l.get? n = some x) : l.set n x = l := by
  induction l generalizing n with
  | nil => cases h
  | cons a t ih =>
    cases n with
    | zero =>
      have : a = x := by simpa using h
      simp [List.set, this]
    | succ m =>
      have ht : t.set m x = t := ih (by simpa using h)
      simp [List.set, ht]

/-- Anatomy of a successful `try_insert`. -/
theorem try_insert_ok_spec {a a' : Arena T} {v : T} {idx : Index}
    (h : a.try_insert v = some (a', .ok idx)) :
    ∃ nf, a.free_list_head = some idx.index ∧
      a.items.get? idx.index = some (Entry.Free nf) ∧
      idx.generation = a.generation ∧
      a' = { items := a.items.set idx.index (Entry.Occupied a.generation v)
             generation := a.generation
             free_list_head := nf } := by
  cases hh : a.free_list_head with
  | none => simp only [Arena.try_insert, hh] at h; simp at h
  | some i =>
    cases hg : a.items.get? i with
    | none =>
      simp only [Arena.try_insert, hh, hg] at h
      exact Option.noConfusion h
    | some e =>
      cases e with
      | Occupied g w =>
        simp only [Arena.try_insert, hh, hg] at h
        exact Option.noConfusion h
      | Free nf =>
        simp only [Arena.try_insert, hh, hg, Option.some.injEq, Prod.mk.injEq,
          InsertResult.ok.injEq] at h
        obtain ⟨ha, hidx⟩ := h
        subst ha
        cases hidx
        exact ⟨nf, rfl, hg, rfl, rfl⟩

/-- On a full arena `try_insert` hands the value back and changes
nothing. -/
theorem try_insert_full_spec {a a' : Arena T} {v w : T}
    (h : a.try_insert v = some (a', .full w)) :
    a' = a ∧ w = v ∧ a.free_list_head = none := by
  cases hh : a.free_list_head with
  | none =>
    simp only [Arena.try_insert, hh, Option.some.injEq, Prod.mk.injEq,
      InsertResult.full.injEq] at h
    exact ⟨h.1.symm, h.2.symm, rfl⟩
  | some i =>
    cases hg : a.items.get? i with
    | none =>
      simp only [Arena.try_insert, hh, hg] at h
      exact Option.noConfusion h
    | some e =>
      cases e with
      | Occupied g u =>
        simp only [Arena.try_insert, hh, hg] at h
        exact Option.noConfusion h
      | Free nf => simp only [Arena.try_insert, hh, hg] at h; simp at h

/-- Anatomy of a successful removal. -/
theorem remove_some_spec {a a' : Arena T} {i : Index} {v : T}
    (h : a.remove i = some (a', some v)) :
    a.items.get? i.index = some (Entry.Occupied i.generation v) ∧
    a' = { items := a.items.set i.index (Entry.Free a.free_list_head)
           generation := a.generation + 1
           free_list_head := some i.index } := by
  cases hg : a.items.get? i.index with
  | none =>
    simp only [Arena.remove, hg] at h
    exact Option.noConfusion h
  | some e =>
    cases e with
    | Free nf => simp only [Arena.remove, hg] at h; simp at h
    | Occupied g w =>
      by_cases hgen : g = i.generation
      · simp only [Arena.remove, hg, if_pos hgen, Option.some.injEq, Prod.mk.injEq] at h
        obtain ⟨h1, h2⟩ := h
        cases h2
        subst hgen
        exact ⟨rfl, h1.symm⟩
      · simp only [Arena.remove, hg, if_neg hgen] at h
        simp at h

/-- A removal that returns `None` leaves the arena exactly as it was. -/
theorem remove_none_eq {a a' : Arena T} {i : Index}
    (h : a.remove i = some (a', none)) : a' = a := by
  cases hg : a.items.get? i.index with
  | none =>
    simp only [Arena.remove, hg] at h
    exact Option.noConfusion h
  | some e =>
    cases e with
    | Free nf =>
      simp only [Arena.remove, hg, Option.some.injEq, Prod.mk.injEq] at h
      have hset : (a.items.set i.index (Entry.Free a.free_list_head)).set i.index
          (Entry.Free nf) = a.items := by
        rw [List.set_set]
        exact set_get?_self hg
      rw [← h.1, hset]
    | Occupied g w =>
      by_cases hgen : g = i.generation
      · simp only [Arena.remove, hg, if_pos hgen, Option.some.injEq, Prod.mk.injEq] at h
        exact Option.noConfusion h.2
      · simp only [Arena.remove, hg, if_neg hgen, Option.some.injEq, Prod.mk.injEq] at h
        have hset : (a.items.set i.index (Entry.Free a.free_list_head)).set i.index
            (Entry.Occupied g w) = a.items := by
          rw [List.set_set]
          exact set_get?_self hg
        rw [← h.1, hset]

/-- Removal with a matching occupied slot succeeds. -/
theorem remove_of_match {a : Arena T} {i : Index} {v : T}
    (hg : a.items.get? i.index = some (Entry.Occupied i.generation v)) :
    a.remove i = some
      ({ items := a.items.set i.index (Entry.Free a.free_list_head)
         generation := a.generation + 1
         free_list_head := some i.index }, some v) := by
  simp only [Arena.remove, hg]
  simp

/-- Removal at an in-bounds slot that is not occupied with the index's
generation is a no-op returning `None`. -/
theorem remove_of_no_match {a : Arena T} {i : Index}
    (hlt : i.index < a.items.length)
    (hno : ∀ v, a.items.get? i.index ≠ some (Entry.Occupied i.generation v)) :
    a.remove i = some (a, none) := by
  cases hg : a.items.get? i.index with
  | none => exact absurd (List.get?_eq_none.1 hg) (Nat.not_le.2 hlt)
  | some e =>
    cases e with
    | Free nf =>
      have hset : (a.items.set i.index (Entry.Free a.free_list_head)).set i.index
          (Entry.Free nf) = a.items := by
        rw [List.set_set]
        exact set_get?_self hg
      simp only [Arena.remove, hg, hset]
    | Occupied g w =>
      have hne : ¬ g = i.generation := fun hgen => hno w (hgen ▸ hg)
      have hset : (a.items.set i.index (Entry.Free a.free_list_head)).set i.index
          (Entry.Occupied g w) = a.items := by
        rw [List.set_set]
        exact set_get?_self hg
      simp only [Arena.remove, hg, if_neg hne, hset]

theorem reserve_length (a : Arena T) (k : Nat) :
    (a.reserve k).items.length = a.items.length + k := by
  simp [Arena.reserve]

theorem reserve_generation (a : Arena T) (k : Nat) :
    (a.reserve k).generation = a.generation := rfl

theorem reserve_head (a : Arena T) (k : Nat) :
    (a.reserve k).free_list_head = some a.items.length := rfl

theorem reserve_get?_lt (a : Arena T) (k : Nat) {p : Nat} (hp : p < a.items.length) :
    (a.reserve k).items.get? p = a.items.get? p := by
  simp only [Arena.reserve]
  exact List.get?_append hp

theorem reserve_get?_new (a : Arena T) {k t : Nat} (ht : t < k) :
    (a.reserve k).items.get? (a.items.length + t) =
      some (if a.items.length + t = a.items.length + k - 1
        then Entry.Free a.free_list_head
        else Entry.Free (some (a.items.length + t + 1))) := by
  simp only [Arena.reserve]
  rw [List.get?_append_right (Nat.le_add_right _ _)]
  rw [Nat.add_sub_cancel_left]
  rw [List.get?_map, List.get?_range' _ _ ht]
  simp

theorem chain_reserve_aux (a : Arena T) (k : Nat) (lold : List Nat)
    (hold : FreeChain (a.reserve k).items a.free_list_head lold)
    (hbnd : ∀ p ∈ lold, p < a.items.length) :
    ∀ d t, t + d = k → 1 ≤ d →
      FreeChain (a.reserve k).items (some (a.items.length + t))
        (List.range' (a.items.length + t) d ++ lold) := by
  intro d
  induction d with
  | zero => intro t _ h1; cases h1
  | succ d ih =>
    intro t htk _
    rcases Nat.eq_zero_or_pos d with hd0 | hd1
    · subst hd0
      have ht : t = k - 1 := by omega
      have hget : (a.reserve k).items.get? (a.items.length + t) =
          some (Entry.Free a.free_list_head) := by
        rw [reserve_get?_new a (by omega)]
        rw [if_pos (by omega)]
      refine FreeChain.cons hget ?_ ?_
      · intro hm
        rcases List.mem_append.1 hm with hm | hm
        · simp [List.range'] at hm
        · exact absurd (hbnd _ hm) (by omega)
      · show FreeChain (a.reserve k).items a.free_list_head ([] ++ lold)
        simpa using hold
    · have hget : (a.reserve k).items.get? (a.items.length + t) =
          some (Entry.Free (some (a.items.length + t + 1))) := by
        rw [reserve_get?_new a (by omega)]
        rw [if_neg (by omega)]
      have hrest := ih (t + 1) (by omega) hd1
      rw [List.range'_succ]
      refine FreeChain.cons hget ?_ ?_
      · intro hm
        rcases List.mem_append.1 hm with hm | hm
        · have := List.mem_range'_1.1 hm
          omega
        · exact absurd (hbnd _ hm) (by omega)
      · have : a.items.length + t + 1 = a.items.length + (t + 1) := by omega
        rw [this]
        exact hrest

theorem reserve_get?_new_free (a : Arena T) {k p : Nat}
    (h1 : a.items.length ≤ p) (h2 : p < a.items.length + k) :
    ∃ nf, (a.reserve k).items.get? p = some (Entry.Free nf) := by
  obtain ⟨t, rfl⟩ : ∃ t, p = a.items.length + t := ⟨p - a.items.length, by omega⟩
  rw [reserve_get?_new a (by omega)]
  by_cases hc : a.items.length + t = a.items.length + k - 1
  · exact ⟨a.free_list_head, by rw [if_pos hc]⟩
  · exact ⟨some (a.items.length + t + 1), by rw [if_neg hc]⟩

theorem FreeListOk.reserve {a : Arena T} (h : FreeListOk a) {k : Nat} (hk : 1 ≤ k) :
    FreeListOk (a.reserve k) := by
  obtain ⟨lold, hc, hm⟩ := h
  have hbnd : ∀ p ∈ lold, p < a.items.length := fun p hp => hc.mem_lt hp
  have hold : FreeChain (a.reserve k).items a.free_list_head lold := by
    simp only [Arena.reserve]
    exact hc.append_right
  have hchain := chain_reserve_aux a k lold hold hbnd k 0 (by omega) hk
  rw [Nat.add_zero] at hchain
  refine ⟨List.range' a.items.length k ++ lold, ?_, ?_⟩
  · rw [reserve_head]
    exact hchain
  · intro p
    constructor
    · intro hp
      rcases List.mem_append.1 hp with hp | hp
      · have := List.mem_range'_1.1 hp
        exact reserve_get?_new_free a this.1 this.2
      · obtain ⟨nf, hnf⟩ := (hm p).1 hp
        exact ⟨nf, by rw [reserve_get?_lt a k (hbnd p hp)]; exact hnf⟩
    · rintro ⟨nf, hnf⟩
      by_cases hp : p < a.items.length
      · rw [reserve_get?_lt a k hp] at hnf
        exact List.mem_append.2 (Or.inr ((hm p).2 ⟨nf, hnf⟩))
      · have hlt : p < a.items.length + k := by
          have := (List.get?_eq_some.1 hnf).1
          rw [reserve_length] at this
          exact this
        exact List.mem_append.2 (Or.inl (List.mem_range'_1.2 ⟨by omega, hlt⟩))

/-- A well-formed free list with head `some i` has a `Free` slot at `i`
and a well-formed tail. -/
theorem FreeListOk.head_spec {a : Arena T} (h : FreeListOk a) {i : Nat}
    (hh : a.free_list_head = some i) :
    ∃ nf l', a.items.get? i = some (Entry.Free nf) ∧ i ∉ l' ∧
      FreeChain a.items nf l' ∧
      (∀ p, p ∈ i :: l' ↔ ∃ m, a.items.get? p = some (Entry.Free m)) := by
  obtain ⟨l, hc, hm⟩ := h
  rw [hh] at hc
  cases hc with
  | cons hget hnm hrest =>
    exact ⟨_, _, hget, hnm, hrest, hm⟩

/-- With the free-list head at a `Free` slot, `try_insert` succeeds with
an explicitly known result. -/
theorem try_insert_of_head_free {a : Arena T} {i : Nat} {nf : Option Nat}
    (hh : a.free_list_head = some i)
    (hget : a.items.get? i = some (Entry.Free nf)) (v : T) :
    a.try_insert v = some
      ({ items := a.items.set i (Entry.Occupied a.generation v)
         generation := a.generation
         free_list_head := nf }, .ok ⟨i, a.generation⟩) := by
  simp only [Arena.try_insert, hh, hget]

/-- Under a well-formed free list `try_insert` never panics. -/
theorem try_insert_total {a : Arena T} (h : FreeListOk a) (v : T) :
    ∃ a' r, a.try_insert v = some (a', r) := by
  cases hh : a.free_list_head with
  | none => exact ⟨a, .full v, by simp only [Arena.try_insert, hh]⟩
  | some i =>
    obtain ⟨nf, l', hget, -, -, -⟩ := h.head_spec hh
    exact ⟨_, _, try_insert_of_head_free hh hget v⟩

theorem FreeListOk.try_insert_preserved {a a' : Arena T} {v : T} {r : InsertResult T}
    (h : FreeListOk a) (ht : a.try_insert v = some (a', r)) : FreeListOk a' := by
  cases r with
  | full w =>
    obtain ⟨rfl, -, -⟩ := try_insert_full_spec ht
    exact h
  | ok idx =>
    obtain ⟨nf, hh, hget, -, rfl⟩ := try_insert_ok_spec ht
    obtain ⟨nf', l', hget', hnm, hrest, hm⟩ := h.head_spec hh
    have hnf : nf' = nf := by
      rw [hget] at hget'
      cases hget'
      rfl
    subst hnf
    refine ⟨l', hrest.set_of_not_mem hnm _, ?_⟩
    intro p
    by_cases hpi : p = idx.index
    · subst hpi
      constructor
      · intro hp
        exact absurd hp hnm
      · rintro ⟨m, hm'⟩
        rw [List.get?_set_eq_of_lt _ (List.get?_eq_some.1 hget).1] at hm'
        cases hm'
    · have hget?' : (a.items.set idx.index (Entry.Occupied a.generation v)).get? p
          = a.items.get? p := List.get?_set_ne _ _ (fun he => hpi he.symm)
      rw [hget?']
      constructor
      · intro hp
        exact (hm p).1 (List.mem_cons_of_mem _ hp)
      · intro hp
        rcases List.mem_cons.1 ((hm p).2 hp) with rfl | hp'
        · exact absurd rfl hpi
        · exact hp'

theorem FreeListOk.remove_preserved {a a' : Arena T} {i : Index} {res : Option T}
    (h : FreeListOk a) (hr : a.remove i = some (a', res)) : FreeListOk a' := by
  cases res with
  | none => rw [remove_none_eq hr]; exact h
  | some v =>
    obtain ⟨hget, rfl⟩ := remove_some_spec hr
    obtain ⟨l, hc, hm⟩ := h
    have hnm : i.index ∉ l := by
      intro hmem
      obtain ⟨nf, hnf⟩ := hc.mem_free hmem
      rw [hget] at hnf
      cases hnf
    have hlt : i.index < a.items.length := (List.get?_eq_some.1 hget).1
    refine ⟨i.index :: l, ?_, ?_⟩
    · refine FreeChain.cons ?_ hnm (hc.set_of_not_mem hnm _)
      exact List.get?_set_eq_of_lt _ hlt
    · intro p
      by_cases hpi : p = i.index
      · subst hpi
        simp only [List.mem_cons, true_or, true_iff]
        exact ⟨a.free_list_head, List.get?_set_eq_of_lt _ hlt⟩
      · have hget?' : (a.items.set i.index (Entry.Free a.free_list_head)).get? p
            = a.items.get? p := List.get?_set_ne _ _ (fun he => hpi he.symm)
        rw [List.mem_cons]
        rw [hget?']
        constructor
        · rintro (rfl | hp)
          · exact absurd rfl hpi
          · exact (hm p).1 hp
        · intro hp
          exact Or.inr ((hm p).2 hp)

theorem try_insert_length {a a' : Arena T} {v : T} {r : InsertResult T}
    (ht : a.try_insert v = some (a', r)) : a'.items.length = a.items.length := by
  cases r with
  | full w =>
    obtain ⟨rfl, -, -⟩ := try_insert_full_spec ht
    rfl
  | ok idx =>
    obtain ⟨nf, -, -, -, rfl⟩ := try_insert_ok_spec ht
    exact List.length_set _ _ _

theorem remove_length {a a' : Arena T} {i : Index} {res : Option T}
    (hr : a.remove i = some (a', res)) : a'.items.length = a.items.length := by
  cases res with
  | none => rw [remove_none_eq hr]
  | some v =>
    obtain ⟨-, rfl⟩ := remove_some_spec hr
    exact List.length_set _ _ _

theorem remove_generation_some {a a' : Arena T} {i : Index} {v : T}
    (hr : a.remove i = some (a', some v)) : a'.generation = a.generation + 1 := by
  obtain ⟨-, rfl⟩ := remove_some_spec hr
  rfl

theorem remove_generation_none {a a' : Arena T} {i : Index}
    (hr : a.remove i = some (a', none)) : a'.generation = a.generation := by
  rw [remove_none_eq hr]

theorem try_insert_generation {a a' : Arena T} {v : T} {r : InsertResult T}
    (ht : a.try_insert v = some (a', r)) : a'.generation = a.generation := by
  cases r with
  | full w =>
    obtain ⟨rfl, -, -⟩ := try_insert_full_spec ht
    rfl
  | ok idx =>
    obtain ⟨nf, -, -, -, rfl⟩ := try_insert_ok_spec ht
    rfl

/-- A successful `insert` is a successful `try_insert`, possibly after one
doubling `reserve`. -/
theorem insert_decomp {a a' : Arena T} {v : T} {idx : Index}
    (h : a.insert v = some (a', idx)) :
    a.try_insert v = some (a', .ok idx) ∨
      (a.free_list_head = none ∧
        (a.reserve a.items.length).try_insert v = some (a', .ok idx)) := by
  cases htr : a.try_insert v with
  | none =>
    simp only [Arena.insert, htr] at h
    exact Option.noConfusion h
  | some p =>
    obtain ⟨a1, r⟩ := p
    cases r with
    | ok j =>
      simp only [Arena.insert, htr, Option.some.injEq, Prod.mk.injEq] at h
      obtain ⟨rfl, rfl⟩ := h
      exact Or.inl rfl
    | full w =>
      obtain ⟨h1, h2, hh⟩ := try_insert_full_spec htr
      simp only [Arena.insert, htr] at h
      rw [h1, h2] at h
      revert h
      cases htr2 : (a.reserve a.items.length).try_insert v with
      | none =>
        intro h
        exact Option.noConfusion h
      | some q =>
        obtain ⟨a2, r2⟩ := q
        cases r2 with
        | ok j =>
          intro h
          have h' : some (a2, j) = some (a', idx) := h
          simp only [Option.some.injEq, Prod.mk.injEq] at h'
          obtain ⟨rfl, rfl⟩ := h'
          exact Or.inr ⟨hh, rfl⟩
        | full u =>
          intro h
          have h' : (none : Option (Arena T × Index)) = some (a', idx) := h
          exact Option.noConfusion h'

/-- Construction via `with_capacity` yields the invariant. -/
theorem with_capacity_inv {n : Nat} {a0 : Arena T}
    (h : Arena.with_capacity n = some a0) : ArenaInv a0 := by
  unfold Arena.with_capacity at h
  by_cases hn : 0 < n
  · rw [if_pos hn, Option.some.injEq] at h
    subst h
    constructor
    · rw [reserve_length]
      simpa using hn
    · refine FreeListOk.reserve ⟨[], .nil, ?_⟩ hn
      intro p
      simp
  · rw [if_neg hn] at h
    cases h

/-- One public mutating call that returns normally, with a positive
`reserve` argument. -/
inductive StepP : Arena T → Arena T → Prop where
  | tin {a a' : Arena T} {v : T} {r : InsertResult T} :
      a.try_insert v = some (a', r) → StepP a a'
  | ins {a a' : Arena T} {v : T} {idx : Index} :
      a.insert v = some (a', idx) → StepP a a'
  | rem {a a' : Arena T} {i : Index} {res : Option T} :
      a.remove i = some (a', res) → StepP a a'
  | rsv {a : Arena T} {k : Nat} : 1 ≤ k → StepP a (a.reserve k)

/-- One public mutating call that returns normally (any `reserve`
argument, including 0). -/
inductive StepA : Arena T → Arena T → Prop where
  | tin {a a' : Arena T} {v : T} {r : InsertResult T} :
      a.try_insert v = some (a', r) → StepA a a'
  | ins {a a' : Arena T} {v : T} {idx : Index} :
      a.insert v = some (a', idx) → StepA a a'
  | rem {a a' : Arena T} {i : Index} {res : Option T} :
      a.remove i = some (a', res) → StepA a a'
  | rsv {a : Arena T} (k : Nat) : StepA a (a.reserve k)

/-- Reachable from some `with_capacity(n)` (or `new()`, which is
`with_capacity(4)`) by mutating calls whose `reserve` amounts are
positive. -/
def ReachableP (a : Arena T) : Prop :=
  ∃ n a0, Arena.with_capacity n = some a0 ∧ Relation.ReflTransGen StepP a0 a

/-- Reachable from some `with_capacity(n)` (or `new()`) by any sequence of
mutating calls. -/
def ReachableA (a : Arena T) : Prop :=
  ∃ n a0, Arena.with_capacity n = some a0 ∧ Relation.ReflTransGen StepA a0 a

theorem ArenaInv.insert_total {a : Arena T} (h : ArenaInv a) (v : T) :
    ∃ a' idx, a.insert v = some (a', idx) ∧ ArenaInv a' := by
  obtain ⟨hlen, hok⟩ := h
  cases hh : a.free_list_head with
  | some i =>
    obtain ⟨nf, l', hget, -, -, -⟩ := hok.head_spec hh
    have htr := try_insert_of_head_free hh hget v
    have hins : a.insert v = some
        ({ items := a.items.set i (Entry.Occupied a.generation v)
           generation := a.generation
           free_list_head := nf }, ⟨i, a.generation⟩) := by
      simp only [Arena.insert, htr]
    refine ⟨_, _, hins, ?_⟩
    constructor
    · rw [try_insert_length htr]
      exact hlen
    · exact hok.try_insert_preserved htr
  | none =>
    have htr : a.try_insert v = some (a, .full v) := by
      simp only [Arena.try_insert, hh]
    have hok2 : FreeListOk (a.reserve a.items.length) := hok.reserve hlen
    have hh2 := reserve_head a a.items.length
    obtain ⟨nf, l', hget, -, -, -⟩ := hok2.head_spec hh2
    have htr2 := try_insert_of_head_free hh2 hget v
    have hins : a.insert v = some
        ({ items := (a.reserve a.items.length).items.set a.items.length
             (Entry.Occupied (a.reserve a.items.length).generation v)
           generation := (a.reserve a.items.length).generation
           free_list_head := nf }, ⟨a.items.length, (a.reserve a.items.length).generation⟩) := by
      simp only [Arena.insert, htr, htr2]
    refine ⟨_, _, hins, ?_⟩
    constructor
    · rw [try_insert_length htr2, reserve_length]
      omega
    · exact hok2.try_insert_preserved htr2

theorem ArenaInv.step_inv {a a' : Arena T} (h : ArenaInv a) (s : StepP a a') :
    ArenaInv a' := by
  obtain ⟨hlen, hok⟩ := h
  cases s with
  | tin ht =>
    exact ⟨by rw [try_insert_length ht]; exact hlen, hok.try_insert_preserved ht⟩
  | ins hi =>
    rcases insert_decomp hi with ht | ⟨-, ht⟩
    · exact ⟨by rw [try_insert_length ht]; exact hlen, hok.try_insert_preserved ht⟩
    · refine ⟨?_, (hok.reserve hlen).try_insert_preserved ht⟩
      rw [try_insert_length ht, reserve_length]
      omega
  | rem hr =>
    exact ⟨by rw [remove_length hr]; exact hlen, hok.remove_preserved hr⟩
  | rsv hk =>
    refine ⟨?_, hok.reserve hk⟩
    rw [reserve_length]
    omega

theorem ReachableP.inv {a : Arena T} (h : ReachableP a) : ArenaInv a := by
  obtain ⟨n, a0, h0, hsteps⟩ := h
  induction hsteps with
  | refl => exact with_capacity_inv h0
  | tail _ hstep ih => exact ih.step_inv hstep

/-- Every `Occupied` slot's stamped generation is at most the arena's
generation counter. -/
def GenLe (a : Arena T) : Prop :=
  ∀ p g v, a.items.get? p = some (Entry.Occupied g v) → g ≤ a.generation

/-- Index `i` is permanently stale: the arena's generation counter has
passed it, and its slot is not occupied at its generation. -/
def Expired (a : Arena T) (i : Index) : Prop :=
  i.generation < a.generation ∧
    ∀ v, a.items.get? i.index ≠ some (Entry.Occupied i.generation v)

theorem reserve_get?_not_occupied (a : Arena T) {k p : Nat}
    (h : a.items.length ≤ p) (g : Nat) (v : T) :
    (a.reserve k).items.get? p ≠ some (Entry.Occupied g v) := by
  intro hocc
  by_cases hlt : p < a.items.length + k
  · obtain ⟨nf, hnf⟩ := reserve_get?_new_free a h hlt
    rw [hocc] at hnf
    cases hnf
  · have : (a.reserve k).items.get? p = none := by
      rw [List.get?_eq_none, reserve_length]
      omega
    rw [hocc] at this
    cases this

theorem GenLe.try_insert_keeps {a a' : Arena T} {v : T} {r : InsertResult T}
    (h : GenLe a) (ht : a.try_insert v = some (a', r)) : GenLe a' := by
  cases r with
  | full w =>
    obtain ⟨rfl, -, -⟩ := try_insert_full_spec ht
    exact h
  | ok idx =>
    obtain ⟨nf, -, hget, -, rfl⟩ := try_insert_ok_spec ht
    intro p g w hp
    by_cases hpi : p = idx.index
    · subst hpi
      rw [List.get?_set_eq_of_lt _ (List.get?_eq_some.1 hget).1] at hp
      cases hp
      exact Nat.le_refl _
    · rw [List.get?_set_ne _ _ (fun he => hpi he.symm)] at hp
      exact h p g w hp

theorem GenLe.remove_keeps {a a' : Arena T} {i : Index} {res : Option T}
    (h : GenLe a) (hr : a.remove i = some (a', res)) : GenLe a' := by
  cases res with
  | none => rw [remove_none_eq hr]; exact h
  | some v =>
    obtain ⟨hget, rfl⟩ := remove_some_spec hr
    intro p g w hp
    by_cases hpi : p = i.index
    · subst hpi
      rw [List.get?_set_eq_of_lt _ (List.get?_eq_some.1 hget).1] at hp
      cases hp
    · rw [List.get?_set_ne _ _ (fun he => hpi he.symm)] at hp
      exact Nat.le_succ_of_le (h p g w hp)

theorem GenLe.reserve_keeps {a : Arena T} (h : GenLe a) (k : Nat) :
    GenLe (a.reserve k) := by
  intro p g w hp
  by_cases hpl : p < a.items.length
  · rw [reserve_get?_lt a k hpl] at hp
    exact h p g w hp
  · exact absurd hp (reserve_get?_not_occupied a (by omega) g w)

theorem GenLe.step_keeps {a a' : Arena T} (h : GenLe a) (s : StepA a a') : GenLe a' := by
  cases s with
  | tin ht => exact h.try_insert_keeps ht
  | ins hi =>
    rcases insert_decomp hi with ht | ⟨-, ht⟩
    · exact h.try_insert_keeps ht
    · exact (h.reserve_keeps _).try_insert_keeps ht
  | rem hr => exact h.remove_keeps hr
  | rsv k => exact h.reserve_keeps k

theorem StepA.gen_le {a a' : Arena T} (s : StepA a a') :
    a.generation ≤ a'.generation := by
  cases s with
  | tin ht => rw [try_insert_generation ht]
  | ins hi =>
    rcases insert_decomp hi with ht | ⟨-, ht⟩
    · rw [try_insert_generation ht]
    · rw [try_insert_generation ht, reserve_generation]
  | rem hr =>
    rename_i i res
    cases res with
    | none => rw [remove_generation_none hr]
    | some v => rw [remove_generation_some hr]; exact Nat.le_succ _
  | rsv k => rw [reserve_generation]

theorem StepA.len_le {a a' : Arena T} (s : StepA a a') :
    a.items.length ≤ a'.items.length := by
  cases s with
  | tin ht => rw [try_insert_length ht]
  | ins hi =>
    rcases insert_decomp hi with ht | ⟨-, ht⟩
    · rw [try_insert_length ht]
    · rw [try_insert_length ht, reserve_length]
      omega
  | rem hr => rw [remove_length hr]
  | rsv k => rw [reserve_length]; omega

theorem Expired.along_step {a a' : Arena T} {i : Index} (h : Expired a i)
    (s : StepA a a') : Expired a' i := by
  refine ⟨Nat.lt_of_lt_of_le h.1 s.gen_le, ?_⟩
  have hslot : ∀ (b b' : Arena T) (v : T) (r : InsertResult T),
      Expired b i → b.try_insert v = some (b', r) →
      ∀ w, b'.items.get? i.index ≠ some (Entry.Occupied i.generation w) := by
    intro b b' v r hb ht w
    cases r with
    | full u =>
      obtain ⟨rfl, -, -⟩ := try_insert_full_spec ht
      exact hb.2 w
    | ok idx =>
      obtain ⟨nf, -, hget, -, rfl⟩ := try_insert_ok_spec ht
      by_cases hpi : i.index = idx.index
      · rw [hpi, List.get?_set_eq_of_lt _ (List.get?_eq_some.1 hget).1]
        intro hocc
        simp only [Option.some.injEq, Entry.Occupied.injEq] at hocc
        exact Nat.ne_of_lt hb.1 hocc.1.symm
      · rw [List.get?_set_ne _ _ (fun he => hpi he.symm)]
        exact hb.2 w
  have hreserve : ∀ (b : Arena T) (k : Nat), Expired b i → Expired (b.reserve k) i := by
    intro b k hb
    refine ⟨by rw [reserve_generation]; exact hb.1, ?_⟩
    intro w
    by_cases hpl : i.index < b.items.length
    · rw [reserve_get?_lt b k hpl]
      exact hb.2 w
    · exact reserve_get?_not_occupied b (by omega) _ w
  cases s with
  | tin ht => exact hslot _ _ _ _ h ht
  | ins hi =>
    rcases insert_decomp hi with ht | ⟨-, ht⟩
    · exact hslot _ _ _ _ h ht
    · exact hslot _ _ _ _ (hreserve _ _ h) ht
  | rem hr =>
    rename_i j res
    cases res with
    | none =>
      rw [remove_none_eq hr]
      exact h.2
    | some v =>
      obtain ⟨hget, rfl⟩ := remove_some_spec hr
      intro w
      by_cases hpi : i.index = j.index
      · rw [hpi, List.get?_set_eq_of_lt _ (List.get?_eq_some.1 hget).1]
        intro hocc
        cases hocc
      · rw [List.get?_set_ne _ _ (fun he => hpi he.symm)]
        exact h.2 w
  | rsv k => exact (hreserve _ _ h).2

theorem Expired.reach {a a2 : Arena T} {i : Index} (h : Expired a i)
    (hs : Relation.ReflTransGen StepA a a2) : Expired a2 i := by
  induction hs with
  | refl => exact h
  | tail _ hstep ih => exact ih.along_step hstep

theorem reach_len_le {a a2 : Arena T} (hs : Relation.ReflTransGen StepA a a2) :
    a.items.length ≤ a2.items.length := by
  induction hs with
  | refl => exact Nat.le_refl _
  | tail _ hstep ih => exact Nat.le_trans ih hstep.len_le

/-- A successful removal leaves the removed index permanently stale. -/
theorem remove_some_expired {a a' : Arena T} {i : Index} {v : T}
    (hg : GenLe a) (hr : a.remove i = some (a', some v)) : Expired a' i := by
  obtain ⟨hget, rfl⟩ := remove_some_spec hr
  refine ⟨Nat.lt_succ_of_le (hg _ _ _ hget), ?_⟩
  intro w
  rw [List.get?_set_eq_of_lt _ (List.get?_eq_some.1 hget).1]
  intro hocc
  cases hocc

theorem GenLe.with_capacity {n : Nat} {a0 : Arena T}
    (h : Arena.with_capacity n = some a0) : GenLe a0 := by
  unfold Arena.with_capacity at h
  by_cases hn : 0 < n
  · rw [if_pos hn, Option.some.injEq] at h
    subst h
    intro p g v hp
    exact absurd hp (reserve_get?_not_occupied _ (Nat.zero_le p) g v)
  · rw [if_neg hn] at h
    cases h

theorem ReachableA.genLe {a : Arena T} (h : ReachableA a) : GenLe a := by
  obtain ⟨n, a0, h0, hsteps⟩ := h
  induction hsteps with
  | refl => exact GenLe.with_capacity h0
  | tail _ hstep ih => exact ih.step_keeps hstep

/-- What a permanently stale in-bounds index observes. -/
theorem expired_get {a : Arena T} {i : Index} (h : Expired a i)
    (hlt : i.index < a.items.length) : a.get i = some none := by
  cases hg : a.items.get? i.index with
  | none => exact absurd (List.get?_eq_none.1 hg) (Nat.not_le.2 hlt)
  | some e =>
    cases e with
    | Free nf => simp only [Arena.get, hg]
    | Occupied g w =>
      have hne : ¬ g = i.generation := by
        intro hgen
        exact h.2 w (by rw [hg, hgen])
      simp only [Arena.get, hg, if_neg hne]

theorem expired_get_mut {a : Arena T} {i : Index} (h : Expired a i)
    (hlt : i.index < a.items.length) : a.get_mut i = some none := by
  cases hg : a.items.get? i.index with
  | none => exact absurd (List.get?_eq_none.1 hg) (Nat.not_le.2 hlt)
  | some e =>
    cases e with
    | Free nf => simp only [Arena.get_mut, hg]
    | Occupied g w =>
      have hne : ¬ g = i.generation := by
        intro hgen
        exact h.2 w (by rw [hg, hgen])
      simp only [Arena.get_mut, hg, if_neg hne]

theorem expired_remove {a : Arena T} {i : Index} (h : Expired a i)
    (hlt : i.index < a.items.length) : a.remove i = some (a, none) := by
  refine remove_of_no_match hlt ?_
  intro v
  exact h.2 v

/-- The slot an index was just issued for resolves to the inserted
value. -/
theorem try_insert_get {b b' : Arena T} {v : T} {idx : Index}
    (ht : b.try_insert v = some (b', .ok idx)) : b'.get idx = some (some v) := by
  obtain ⟨nf, -, hget, hgen, rfl⟩ := try_insert_ok_spec ht
  have hlt : idx.index < b.items.length := (List.get?_eq_some.1 hget).1
  have hg' : (b.items.set idx.index (Entry.Occupied b.generation v)).get? idx.index
      = some (Entry.Occupied b.generation v) := List.get?_set_eq_of_lt _ hlt
  simp only [Arena.get, hg', if_pos hgen.symm]

theorem insert_get {a a' : Arena T} {v : T} {idx : Index}
    (hi : a.insert v = some (a', idx)) : a'.get idx = some (some v) := by
  rcases insert_decomp hi with ht | ⟨-, ht⟩
  · exact try_insert_get ht
  · exact try_insert_get ht

theorem insert_generation_stamp {a a' : Arena T} {v : T} {idx : Index}
    (hi : a.insert v = some (a', idx)) :
    idx.generation = a.generation ∧ a'.generation = a.generation ∧
      a'.items.get? idx.index = some (Entry.Occupied a.generation v) := by
  rcases insert_decomp hi with ht | ⟨-, ht⟩
  · obtain ⟨nf, -, hget, hgen, rfl⟩ := try_insert_ok_spec ht
    exact ⟨hgen, rfl,
      List.get?_set_eq_of_lt _ (List.get?_eq_some.1 hget).1⟩
  · obtain ⟨nf, -, hget, hgen, rfl⟩ := try_insert_ok_spec ht
    refine ⟨hgen.trans (reserve_generation a a.items.length),
      reserve_generation a a.items.length, ?_⟩
    have hset := List.get?_set_eq_of_lt
      (Entry.Occupied (a.reserve a.items.length).generation v)
      (List.get?_eq_some.1 hget).1
    rw [hset, reserve_generation]

end GArena

namespace GArena

/-- C4: for an in-bounds index, `get` and `get_mut` return the stored
value exactly when the slot is `Occupied` with the index's stamped
generation, and report absent otherwise; neither mutates the arena (they
are embedded as pure lookups, as in the source, which only hands out
references), and `contains` is exactly `get(i).is_some()`. -/
theorem C4_get_semantics {T : Type} (a : Arena T) (i : Index)
    (h : i.index < a.items.length) :
    (∀ v, a.get i = some (some v) ↔
      a.items.get? i.index = some (Entry.Occupied i.generation v)) ∧
    ((∀ v, a.items.get? i.index ≠ some (Entry.Occupied i.generation v)) →
      a.get i = some none) ∧
    a.get_mut i = a.get i ∧
    a.contains i = (a.get i).map Option.isSome := by
  refine ⟨?_, ?_, rfl, rfl⟩
  · intro v
    cases hg : a.items.get? i.index with
    | none => exact absurd (List.get?_eq_none.1 hg) (Nat.not_le.2 h)
    | some e =>
      cases e with
      | Free nf =>
        simp only [Arena.get, hg]
        constructor
        · intro hv
          simp at hv
        · intro hv
          cases hv
      | Occupied g w =>
        by_cases hgen : g = i.generation
        · subst hgen
          have hgv : a.get i = some (some w) := by
            simp only [Arena.get, hg]
            simp only [if_true]
          rw [hgv]
          constructor
          · intro hv
            rw [Option.some.inj (Option.some.inj hv)]
          · intro hv
            injection Option.some.inj hv with h1 h2
            rw [h2]
        · have hgv : a.get i = some none := by
            simp only [Arena.get, hg, if_neg hgen]
          rw [hgv]
          constructor
          · intro hv
            exact absurd (Option.some.inj hv) (by simp)
          · intro hv
            injection Option.some.inj hv with h1 h2
            exact absurd h1 hgen
  · intro hno
    cases hg : a.items.get? i.index with
    | none => exact absurd (List.get?_eq_none.1 hg) (Nat.not_le.2 h)
    | some e =>
      cases e with
      | Free nf => simp only [Arena.get, hg]
      | Occupied g w =>
        have hgen : ¬ g = i.generation := fun he => hno w (by rw [hg, he])
        simp only [Arena.get, hg, if_neg hgen]

/-- Witness for C4 at a concrete arena. -/
theorem C4_witness :
    (0 : Nat) < 1 ∧
    (⟨[Entry.Occupied 0 7], 0, none⟩ : Arena Nat).get ⟨0, 0⟩ = some (some 7) :=
  ⟨by decide,
    ((C4_get_semantics (⟨[Entry.Occupied 0 7], 0, none⟩ : Arena Nat) ⟨0, 0⟩
      (by decide)).1 7).2 (by decide)⟩

/-- C5: the generation counter is bumped by exactly one on each successful
removal and untouched by failed removal, `try_insert`, `insert`, and
`reserve` (lookups are embedded as pure functions and cannot mutate); a
newly occupied slot and the index issued for it are stamped with the
arena's current generation at the moment of insertion. -/
theorem C5_generation_discipline {T : Type} (a : Arena T) :
    (∀ (a' : Arena T) (i : Index) (v : T), a.remove i = some (a', some v) →
      a'.generation = a.generation + 1) ∧
    (∀ (a' : Arena T) (i : Index), a.remove i = some (a', none) →
      a'.generation = a.generation) ∧
    (∀ (a' : Arena T) (v : T) (r : InsertResult T), a.try_insert v = some (a', r) →
      a'.generation = a.generation) ∧
    (∀ (a' : Arena T) (v : T) (idx : Index), a.insert v = some (a', idx) →
      a'.generation = a.generation) ∧
    (∀ k, (a.reserve k).generation = a.generation) ∧
    (∀ (a' : Arena T) (v : T) (idx : Index), a.try_insert v = some (a', .ok idx) →
      idx.generation = a.generation ∧
      a'.items.get? idx.index = some (Entry.Occupied a.generation v)) ∧
    (∀ (a' : Arena T) (v : T) (idx : Index), a.insert v = some (a', idx) →
      idx.generation = a.generation ∧
      a'.items.get? idx.index = some (Entry.Occupied a.generation v)) := by
  refine ⟨?_, ?_, ?_, ?_, ?_, ?_, ?_⟩
  · intro a' i v hr
    exact remove_generation_some hr
  · intro a' i hr
    exact remove_generation_none hr
  · intro a' v r ht
    exact try_insert_generation ht
  · intro a' v idx hi
    rcases insert_decomp hi with ht | ⟨-, ht⟩
    · exact try_insert_generation ht
    · exact (try_insert_generation ht).trans (reserve_generation a _)
  · intro k
    exact reserve_generation a k
  · intro a' v idx ht
    obtain ⟨nf, -, hget, hgen, rfl⟩ := try_insert_ok_spec ht
    exact ⟨hgen, List.get?_set_eq_of_lt _ (List.get?_eq_some.1 hget).1⟩
  · intro a' v idx hi
    obtain ⟨h1, -, h3⟩ := insert_generation_stamp hi
    exact ⟨h1, h3⟩

/-- Witness for C5 at a concrete removal. -/
theorem C5_witness :
    (⟨[Entry.Occupied 0 7], 0, none⟩ : Arena Nat).remove ⟨0, 0⟩ =
      some (⟨[Entry.Free none], 1, some 0⟩, some 7) ∧
    (⟨[Entry.Free none], 1, some 0⟩ : Arena Nat).generation = 0 + 1 :=
  ⟨by decide,
    (C5_generation_discipline (⟨[Entry.Occupied 0 7], 0, none⟩ : Arena Nat)).1
      ⟨[Entry.Free none], 1, some 0⟩ ⟨0, 0⟩ 7 (by decide)⟩

/-- C6: `try_insert` on a full arena (no free-list head) hands the value
back and leaves the arena (slots, free-list head, generation, capacity)
untouched, and a removal that returns no value (free slot or generation
mismatch) leaves the arena exactly as it was. -/
theorem C6_atomicity {T : Type} (a : Arena T) :
    (∀ v : T, a.free_list_head = none → a.try_insert v = some (a, .full v)) ∧
    (∀ (i : Index) (nf : Option Nat), a.items.get? i.index = some (Entry.Free nf) →
      a.remove i = some (a, none)) ∧
    (∀ (i : Index) (g : Nat) (v : T),
      a.items.get? i.index = some (Entry.Occupied g v) → g ≠ i.generation →
      a.remove i = some (a, none)) ∧
    (∀ (i : Index) (a' : Arena T), a.remove i = some (a', none) → a' = a) := by
  refine ⟨?_, ?_, ?_, ?_⟩
  · intro v hh
    simp only [Arena.try_insert, hh]
  · intro i nf hget
    refine remove_of_no_match (List.get?_eq_some.1 hget).1 ?_
    intro v hv
    rw [hget] at hv
    cases hv
  · intro i g v hget hne
    refine remove_of_no_match (List.get?_eq_some.1 hget).1 ?_
    intro w hw
    rw [hget] at hw
    simp only [Option.some.injEq, Entry.Occupied.injEq] at hw
    exact hne hw.1
  · intro i a' hr
    exact remove_none_eq hr

/-- Witness for C6: concrete full arena and concrete stale removal. -/
theorem C6_witness :
    (⟨[Entry.Occupied 0 7], 0, none⟩ : Arena Nat).try_insert 9 =
      some (⟨[Entry.Occupied 0 7], 0, none⟩, .full 9) ∧
    (⟨[Entry.Occupied 5 7], 0, none⟩ : Arena Nat).remove ⟨0, 4⟩ =
      some (⟨[Entry.Occupied 5 7], 0, none⟩, none) :=
  ⟨(C6_atomicity (⟨[Entry.Occupied 0 7], 0, none⟩ : Arena Nat)).1 9 (by decide),
    (C6_atomicity (⟨[Entry.Occupied 5 7], 0, none⟩ : Arena Nat)).2.2.1 ⟨0, 4⟩ 5 7
      (by decide) (by decide)⟩

/-- C10: slot reuse is LIFO.  Immediately after a successful
`remove(i)`, the freed position is the free-list head, so the next
`try_insert` (and `insert`) stores its value at `i.index` and returns an
index with that position and the post-removal generation counter. -/
theorem C10_lifo_reuse {T : Type} (a a1 : Arena T) (i : Index) (v w : T)
    (hr : a.remove i = some (a1, some v)) :
    a1.generation = a.generation + 1 ∧
    a1.free_list_head = some i.index ∧
    ∃ a2, a1.try_insert w = some (a2, .ok ⟨i.index, a1.generation⟩) ∧
      a1.insert w = some (a2, ⟨i.index, a1.generation⟩) ∧
      a2.items.get? i.index = some (Entry.Occupied a1.generation w) := by
  obtain ⟨hget, ha⟩ := remove_some_spec hr
  have hlt : i.index < a.items.length := (List.get?_eq_some.1 hget).1
  have hh : a1.free_list_head = some i.index := by rw [ha]
  have hgen1 : a1.generation = a.generation + 1 := by rw [ha]
  have hlen1 : a1.items.length = a.items.length := by
    rw [ha]
    exact List.length_set _ _ _
  have hg' : a1.items.get? i.index = some (Entry.Free a.free_list_head) := by
    rw [ha]
    exact List.get?_set_eq_of_lt _ hlt
  have htr := try_insert_of_head_free hh hg' w
  refine ⟨hgen1, hh, _, htr, by simp only [Arena.insert, htr], ?_⟩
  have hlt1 : i.index < a1.items.length := by
    rw [hlen1]
    exact hlt
  exact List.get?_set_eq_of_lt _ hlt1

/-- Witness for C10 at a concrete removal. -/
theorem C10_witness :
    (⟨[Entry.Occupied 0 7], 0, none⟩ : Arena Nat).remove ⟨0, 0⟩ =
      some (⟨[Entry.Free none], 1, some 0⟩, some 7) ∧
    (⟨[Entry.Free none], 1, some 0⟩ : Arena Nat).free_list_head = some 0 :=
  ⟨by decide,
    (C10_lifo_reuse (⟨[Entry.Occupied 0 7], 0, none⟩ : Arena Nat)
      (⟨[Entry.Free none], 1, some 0⟩ : Arena Nat) ⟨0, 0⟩ 7 9 (by decide)).2.1⟩

/-- C8 counterexample: the claim includes `k = 0`, but `reserve(0)` on the
arena produced by `with_capacity(1)` appends no slot yet repoints
`free_list_head` at position 1, which is out of bounds — neither the
previous head (position 0) nor any newly appended position. -/
theorem C8_counterexample :
    Arena.with_capacity 1 = some (⟨[Entry.Free none], 0, some 0⟩ : Arena Nat) ∧
    (⟨[Entry.Free none], 0, some 0⟩ : Arena Nat).reserve 0 =
      ⟨[Entry.Free none], 0, some 1⟩ ∧
    (⟨[Entry.Free none], 0, some 0⟩ : Arena Nat).free_list_head = some 0 ∧
    ((⟨[Entry.Free none], 0, some 0⟩ : Arena Nat).reserve 0).items.length = 1 ∧
    ((⟨[Entry.Free none], 0, some 0⟩ : Arena Nat).reserve 0).items.get? 1 = none := by
  refine ⟨by decide, by decide, by decide, by decide, by decide⟩

/-- C8 (amended to `k ≥ 1`): `reserve(k)` adds exactly `k` slots, threads
them as one contiguous run of `Free` slots whose tail links to the
previous `free_list_head`, points `free_list_head` at the first appended
position, leaves all pre-existing slots and the generation untouched, and
preserves the result of `get` for every previously in-bounds index. -/
theorem C8_reserve_spec {T : Type} (a : Arena T) (k : Nat) (hk : 1 ≤ k) :
    (a.reserve k).capacity = a.capacity + k ∧
    (a.reserve k).generation = a.generation ∧
    (a.reserve k).free_list_head = some a.items.length ∧
    (∀ p, p < a.items.length → (a.reserve k).items.get? p = a.items.get? p) ∧
    (∀ t, t < k → (a.reserve k).items.get? (a.items.length + t) =
      some (if t = k - 1 then Entry.Free a.free_list_head
        else Entry.Free (some (a.items.length + t + 1)))) ∧
    (∀ i : Index, i.index < a.items.length → (a.reserve k).get i = a.get i) := by
  refine ⟨reserve_length a k, reserve_generation a k, reserve_head a k, ?_, ?_, ?_⟩
  · intro p hp
    exact reserve_get?_lt a k hp
  · intro t ht
    rw [reserve_get?_new a ht]
    by_cases hc : t = k - 1
    · rw [if_pos hc, if_pos (by omega)]
    · rw [if_neg hc, if_neg (by omega)]
  · intro i hi
    have hg := reserve_get?_lt a k hi
    simp only [Arena.get, hg]

/-- Witness for C8 at concrete inputs. -/
theorem C8_witness :
    (1 : Nat) ≤ 2 ∧
    ((⟨[Entry.Occupied 0 7], 3, none⟩ : Arena Nat).reserve 2).capacity = 1 + 2 :=
  ⟨by decide,
    (C8_reserve_spec (⟨[Entry.Occupied 0 7], 3, none⟩ : Arena Nat) 2 (by decide)).1⟩

/-- C3 counterexample: the claim quantifies over every arena state, but on
the state produced by the public calls `with_capacity(1)` followed by
`reserve(0)`, `insert` panics (the free-list head is out of bounds), so it
does not return an index. -/
theorem C3_counterexample :
    Arena.with_capacity 1 = some (⟨[Entry.Free none], 0, some 0⟩ : Arena Nat) ∧
    ((⟨[Entry.Free none], 0, some 0⟩ : Arena Nat).reserve 0).insert 5 = none := by
  refine ⟨by decide, by decide⟩

/-- C3 (amended to arena states reachable with positive `reserve`
amounts): `insert` always succeeds and `get` at the returned index yields
the value just inserted. -/
theorem C3_roundtrip {T : Type} (a : Arena T) (h : ReachableP a) (v : T) :
    ∃ a' idx, a.insert v = some (a', idx) ∧ a'.get idx = some (some v) := by
  obtain ⟨a', idx, hins, -⟩ := h.inv.insert_total v
  exact ⟨a', idx, hins, insert_get hins⟩

/-- Witness for C3 on the arena made by `with_capacity(1)`. -/
theorem C3_witness :
    ReachableP (⟨[Entry.Free none], 0, some 0⟩ : Arena Nat) ∧
    ∃ a' idx, (⟨[Entry.Free none], 0, some 0⟩ : Arena Nat).insert 7 = some (a', idx) ∧
      a'.get idx = some (some 7) :=
  ⟨⟨1, ⟨[Entry.Free none], 0, some 0⟩, by decide, Relation.ReflTransGen.refl⟩,
    C3_roundtrip (⟨[Entry.Free none], 0, some 0⟩ : Arena Nat)
      ⟨1, ⟨[Entry.Free none], 0, some 0⟩, by decide, Relation.ReflTransGen.refl⟩ 7⟩

/-- C9 counterexample: `try_insert` aborts (free-list head out of bounds)
on a state reached through the public API (`with_capacity(1)` then
`reserve(0)`), so out-of-bounds lookups and zero capacity are not the only
reachable fatal conditions. -/
theorem C9_counterexample :
    Arena.with_capacity 1 = some (⟨[Entry.Free none], 0, some 0⟩ : Arena Nat) ∧
    ReachableA (⟨[Entry.Free none], 0, some 1⟩ : Arena Nat) ∧
    (⟨[Entry.Free none], 0, some 1⟩ : Arena Nat).try_insert 5 = none ∧
    (⟨[Entry.Free none], 0, some 1⟩ : Arena Nat).insert 5 = none :=
  ⟨by decide,
    ⟨1, ⟨[Entry.Free none], 0, some 0⟩, by decide,
      Relation.ReflTransGen.single (StepA.rsv 0)⟩,
    by decide, by decide⟩

/-- C9 (amended: reachability restricted to positive `reserve` amounts):
`with_capacity` aborts exactly on zero capacity; `get`, `get_mut`,
`remove` and `contains` abort exactly on out-of-bounds positions; and
`try_insert`/`insert` never abort on a reachable state. -/
theorem C9_fatal_conditions {T : Type} :
    ((Arena.with_capacity 0 : Option (Arena T)) = none) ∧
    (∀ n, 1 ≤ n → ∃ a0 : Arena T, Arena.with_capacity n = some a0) ∧
    (∀ (a : Arena T) (i : Index), a.items.length ≤ i.index →
      a.get i = none ∧ a.get_mut i = none ∧ a.remove i = none ∧
        a.contains i = none) ∧
    (∀ (a : Arena T) (i : Index), i.index < a.items.length →
      a.get i ≠ none ∧ a.get_mut i ≠ none ∧ a.remove i ≠ none ∧
        a.contains i ≠ none) ∧
    (∀ a : Arena T, ReachableP a → ∀ v : T,
      a.try_insert v ≠ none ∧ a.insert v ≠ none) := by
  refine ⟨?_, ?_, ?_, ?_, ?_⟩
  · simp [Arena.with_capacity]
  · intro n hn
    refine ⟨Arena.reserve ⟨[], 0, none⟩ n, ?_⟩
    rw [Arena.with_capacity, if_pos (Nat.lt_of_lt_of_le Nat.zero_lt_one hn)]
  · intro a i hle
    have hg : a.items.get? i.index = none := List.get?_eq_none.2 hle
    refine ⟨?_, ?_, ?_, ?_⟩
    · simp only [Arena.get, hg]
    · simp only [Arena.get_mut, hg]
    · simp only [Arena.remove, hg]
    · simp only [Arena.contains, Arena.get, hg]
      rfl
  · intro a i hlt
    obtain ⟨e, hg⟩ : ∃ e, a.items.get? i.index = some e := by
      cases hge : a.items.get? i.index with
      | none => exact absurd (List.get?_eq_none.1 hge) (Nat.not_le.2 hlt)
      | some e => exact ⟨e, rfl⟩
    have hget : a.get i ≠ none := by
      cases e with
      | Free nf => simp only [Arena.get, hg]; exact Option.noConfusion
      | Occupied g w =>
        by_cases hgen : g = i.generation
        · simp only [Arena.get, hg, if_pos hgen]
          exact Option.noConfusion
        · simp only [Arena.get, hg, if_neg hgen]
          exact Option.noConfusion
    refine ⟨hget, ?_, ?_, ?_⟩
    · cases e with
      | Free nf => simp only [Arena.get_mut, hg]; exact Option.noConfusion
      | Occupied g w =>
        by_cases hgen : g = i.generation
        · simp only [Arena.get_mut, hg, if_pos hgen]
          exact Option.noConfusion
        · simp only [Arena.get_mut, hg, if_neg hgen]
          exact Option.noConfusion
    · cases e with
      | Free nf => simp only [Arena.remove, hg]; exact Option.noConfusion
      | Occupied g w =>
        by_cases hgen : g = i.generation
        · simp only [Arena.remove, hg, if_pos hgen]
          exact Option.noConfusion
        · simp only [Arena.remove, hg, if_neg hgen]
          exact Option.noConfusion
    · simp only [Arena.contains]
      cases hge : a.get i with
      | none => exact absurd hge hget
      | some b => exact Option.noConfusion
  · intro a hre v
    have hinv := hre.inv
    obtain ⟨a1, r, ht⟩ := try_insert_total hinv.2 v
    obtain ⟨a2, idx, hins, -⟩ := hinv.insert_total v
    constructor
    · rw [ht]
      exact Option.noConfusion
    · rw [hins]
      exact Option.noConfusion

/-- Witness for C9 at concrete inputs. -/
theorem C9_witness :
    (Arena.with_capacity 0 : Option (Arena Nat)) = none ∧
    (⟨[Entry.Free none], 0, some 0⟩ : Arena Nat).get ⟨3, 0⟩ = none :=
  ⟨(@C9_fatal_conditions Nat).1,
    ((@C9_fatal_conditions Nat).2.2.1
      (⟨[Entry.Free none], 0, some 0⟩ : Arena Nat) ⟨3, 0⟩ (by decide)).1⟩

/-- C1 counterexample: the claim allows arbitrary `reserve` calls, but
after `with_capacity(1)` followed by the public call `reserve(0)` the
free-list head points at position 1, outside the single-slot storage, so
no walk of the free list stays in bounds (there is no valid chain at
all). -/
theorem C1_counterexample :
    Arena.with_capacity 1 = some (⟨[Entry.Free none], 0, some 0⟩ : Arena Nat) ∧
    ReachableA (⟨[Entry.Free none], 0, some 1⟩ : Arena Nat) ∧
    ¬ ∃ l, FreeChain (⟨[Entry.Free none], 0, some 1⟩ : Arena Nat).items
      (⟨[Entry.Free none], 0, some 1⟩ : Arena Nat).free_list_head l := by
  refine ⟨by decide,
    ⟨1, ⟨[Entry.Free none], 0, some 0⟩, by decide,
      Relation.ReflTransGen.single (StepA.rsv 0)⟩, ?_⟩
  rintro ⟨l, hc⟩
  cases hc with
  | cons hget hnm hrest => exact Option.noConfusion hget

/-- C1 (amended: `reserve` amounts restricted to be positive): on every
reachable arena state the free list from `free_list_head` is a chain that
stays in bounds, visits exactly the `Free` slots, each exactly once,
terminates in `None`, and its length is `capacity()` minus the number of
live values. -/
theorem C1_free_list_integrity {T : Type} (a : Arena T) (h : ReachableP a) :
    ∃ l, FreeChain a.items a.free_list_head l ∧ l.Nodup ∧
      (∀ p, p ∈ l ↔ ∃ nf, a.items.get? p = some (Entry.Free nf)) ∧
      (∀ p ∈ l, p < a.items.length) ∧
      l.length = a.capacity - liveCount a.items := by
  obtain ⟨-, l, hc, hm⟩ := h.inv
  refine ⟨l, hc, hc.nodup, hm, fun p hp => hc.mem_lt hp, ?_⟩
  have hperm : l.Perm (freePositions a.items) :=
    (List.perm_ext_iff_of_nodup hc.nodup
      (List.Nodup.filter _ (List.nodup_range _))).2
      (fun p => (hm p).trans mem_freePositions.symm)
  rw [hperm.length_eq, freePositions_length, countP_isFreeE_eq]
  rfl

/-- Witness for C1 on the arena made by `with_capacity(1)`. -/
theorem C1_witness :
    ReachableP (⟨[Entry.Free none], 0, some 0⟩ : Arena Nat) ∧
    ∃ l, FreeChain (⟨[Entry.Free none], 0, some 0⟩ : Arena Nat).items
        (⟨[Entry.Free none], 0, some 0⟩ : Arena Nat).free_list_head l ∧ l.Nodup ∧
      (∀ p, p ∈ l ↔ ∃ nf,
        (⟨[Entry.Free none], 0, some 0⟩ : Arena Nat).items.get? p =
          some (Entry.Free nf)) ∧
      (∀ p ∈ l, p < (⟨[Entry.Free none], 0, some 0⟩ : Arena Nat).items.length) ∧
      l.length = (⟨[Entry.Free none], 0, some 0⟩ : Arena Nat).capacity -
        liveCount (⟨[Entry.Free none], 0, some 0⟩ : Arena Nat).items :=
  ⟨⟨1, ⟨[Entry.Free none], 0, some 0⟩, by decide, Relation.ReflTransGen.refl⟩,
    C1_free_list_integrity (⟨[Entry.Free none], 0, some 0⟩ : Arena Nat)
      ⟨1, ⟨[Entry.Free none], 0, some 0⟩, by decide, Relation.ReflTransGen.refl⟩⟩

/-- Repeated `insert`, consuming the list of values left to right;
`none` if any call panics. -/
def insertSeq : Arena T → List T → Option (Arena T)
  | a, [] => some a
  | a, v :: vs =>
    match a.insert v with
    | none => none
    | some (a', _) => insertSeq a' vs

theorem countP_set_incr {A : Type} (P : A → Bool) :
    ∀ (l : List A) (j : Nat) (e e' : A), l.get? j = some e → P e = false →
      P e' = true → (l.set j e').countP P = l.countP P + 1 := by
  intro l
  induction l with
  | nil =>
    intro j e e' h
    cases h
  | cons x t ih =>
    intro j e e' h hPe hPe'
    cases j with
    | zero =>
      have hx : x = e := by simpa using h
      subst hx
      simp only [List.set, List.countP_cons, hPe, hPe']
      simp
    | succ m =>
      have ht : (t.set m e').countP P = t.countP P + 1 :=
        ih m e e' (by simpa using h) hPe hPe'
      simp only [List.set, List.countP_cons, ht]
      omega

/-- With no free-list head, a well-formed arena is completely full. -/
theorem head_none_full {a : Arena T} (hInv : ArenaInv a)
    (hh : a.free_list_head = none) : liveCount a.items = a.items.length := by
  obtain ⟨-, l, hc, hm⟩ := hInv
  rw [hh] at hc
  have hl : l = [] := by cases hc; rfl
  subst hl
  have hzero : a.items.countP isFreeE = 0 := by
    rw [← freePositions_length]
    cases hfp : freePositions a.items with
    | nil => rfl
    | cons q qs =>
      have hq : q ∈ freePositions a.items := by
        rw [hfp]
        exact List.mem_cons_self _ _
      cases (hm q).2 (mem_freePositions.1 hq)
  have hsplit := countP_isFreeE_eq a.items
  have hle : liveCount a.items ≤ a.items.length := List.countP_le_length _
  omega

/-- With a free-list head present, a well-formed arena has a free slot. -/
theorem head_some_notfull {a : Arena T} (hInv : ArenaInv a) {i : Nat}
    (hh : a.free_list_head = some i) : liveCount a.items < a.items.length := by
  obtain ⟨-, hok⟩ := hInv
  obtain ⟨nf, l', hget, -, -, -⟩ := hok.head_spec hh
  have hmem : i ∈ freePositions a.items := mem_freePositions.2 ⟨nf, hget⟩
  have hpos : 0 < (freePositions a.items).length :=
    List.length_pos.2 (List.ne_nil_of_mem hmem)
  rw [freePositions_length, countP_isFreeE_eq] at hpos
  have hle : liveCount a.items ≤ a.items.length := List.countP_le_length _
  omega

/-- A fresh `with_capacity` arena holds no live value. -/
theorem liveCount_with_capacity {n : Nat} {a0 : Arena T}
    (h : Arena.with_capacity n = some a0) : liveCount a0.items = 0 := by
  unfold Arena.with_capacity at h
  by_cases hn : 0 < n
  · rw [if_pos hn, Option.some.injEq] at h
    subst h
    rw [liveCount, List.countP_eq_zero]
    intro e he
    obtain ⟨p, hp⟩ := List.mem_iff_get?.1 he
    cases e with
    | Free nf => simp [isFreeE]
    | Occupied g v => exact absurd hp (reserve_get?_not_occupied _ (Nat.zero_le _) g v)
  · rw [if_neg hn] at h
    cases h

/-- Inserting into a non-full well-formed arena does not grow storage and
adds exactly one live value. -/
theorem insert_nofull_step (a : Arena T) (hInv : ArenaInv a)
    (hlt : liveCount a.items < a.items.length) (v : T) :
    ∃ a' idx, a.insert v = some (a', idx) ∧ ArenaInv a' ∧
      a'.items.length = a.items.length ∧
      liveCount a'.items = liveCount a.items + 1 := by
  cases hh : a.free_list_head with
  | none => exact absurd (head_none_full hInv hh) (Nat.ne_of_lt hlt)
  | some i =>
    obtain ⟨nf, l', hget, -, -, -⟩ := hInv.2.head_spec hh
    have htr := try_insert_of_head_free hh hget v
    have hins : a.insert v = some
        ({ items := a.items.set i (Entry.Occupied a.generation v)
           generation := a.generation
           free_list_head := nf }, ⟨i, a.generation⟩) := by
      simp only [Arena.insert, htr]
    refine ⟨_, _, hins, ?_, List.length_set _ _ _, ?_⟩
    · exact ⟨by rw [try_insert_length htr]; exact hInv.1,
        hInv.2.try_insert_preserved htr⟩
    · exact countP_set_incr _ a.items i _ _ hget rfl rfl

/-- Inserting into a completely full well-formed arena doubles storage. -/
theorem insert_full_step (a : Arena T) (hInv : ArenaInv a)
    (heq : liveCount a.items = a.items.length) (v : T) :
    ∃ a' idx, a.insert v = some (a', idx) ∧
      a'.items.length = 2 * a.items.length := by
  cases hh : a.free_list_head with
  | some i => exact absurd heq (Nat.ne_of_lt (head_some_notfull hInv hh))
  | none =>
    have htr : a.try_insert v = some (a, .full v) := by
      simp only [Arena.try_insert, hh]
    have hok2 : FreeListOk (a.reserve a.items.length) := hInv.2.reserve hInv.1
    obtain ⟨nf, l', hget, -, -, -⟩ := hok2.head_spec (reserve_head a a.items.length)
    have htr2 := try_insert_of_head_free (reserve_head a a.items.length) hget v
    have hins : a.insert v = some
        ({ items := (a.reserve a.items.length).items.set a.items.length
             (Entry.Occupied (a.reserve a.items.length).generation v)
           generation := (a.reserve a.items.length).generation
           free_list_head := nf },
          ⟨a.items.length, (a.reserve a.items.length).generation⟩) := by
      simp only [Arena.insert, htr, htr2]
    refine ⟨_, _, hins, ?_⟩
    show ((a.reserve a.items.length).items.set a.items.length
      (Entry.Occupied (a.reserve a.items.length).generation v)).length
        = 2 * a.items.length
    rw [List.length_set, reserve_length]
    omega

/-- Filling a well-formed arena slot by slot: no growth while values fit
into existing capacity. -/
theorem insertSeq_fits : ∀ (vs : List T) (a : Arena T), ArenaInv a →
    liveCount a.items + vs.length ≤ a.items.length →
    ∃ aN, insertSeq a vs = some aN ∧ ArenaInv aN ∧
      aN.items.length = a.items.length ∧
      liveCount aN.items = liveCount a.items + vs.length := by
  intro vs
  induction vs with
  | nil =>
    intro a hInv hfits
    exact ⟨a, rfl, hInv, rfl, rfl⟩
  | cons v vs ih =>
    intro a hInv hfits
    obtain ⟨a', idx, hins, hInv', hlen', hlive'⟩ :=
      insert_nofull_step a hInv (by simp at hfits; omega) v
    obtain ⟨aN, hseq, hInvN, hlenN, hliveN⟩ := ih a' hInv' (by simp at hfits ⊢; omega)
    refine ⟨aN, ?_, hInvN, by omega, by simp; omega⟩
    simp only [insertSeq, hins]
    exact hseq

/-- C7: `insert` never reports failure on a reachable state; when the
arena is full (`free_list_head` is `None`) a successful `insert` doubles
the present capacity (it reserves `items.len()` additional slots and
retries once); and `capacity + 1` inserts into a fresh `with_capacity(n)`
arena leave capacity at `n` for the first `n` calls and at `2n` after the
last one — exactly one growth event. -/
theorem C7_insert_growth {T : Type} :
    (∀ a : Arena T, ReachableP a → ∀ v : T, ∃ a' idx, a.insert v = some (a', idx)) ∧
    (∀ (a a' : Arena T) (v : T) (idx : Index), a.free_list_head = none →
      a.insert v = some (a', idx) → a'.capacity = 2 * a.capacity) ∧
    (∀ (n : Nat) (a0 : Arena T) (vs : List T) (w : T),
      Arena.with_capacity n = some a0 → vs.length = n →
      ∃ aN aF idxF, insertSeq a0 vs = some aN ∧ aN.capacity = n ∧
        aN.insert w = some (aF, idxF) ∧ aF.capacity = 2 * n) := by
  refine ⟨?_, ?_, ?_⟩
  · intro a hre v
    obtain ⟨a', idx, hins, -⟩ := hre.inv.insert_total v
    exact ⟨a', idx, hins⟩
  · intro a a' v idx hh hins
    rcases insert_decomp hins with ht | ⟨-, ht⟩
    · obtain ⟨nf, hh', -, -, -⟩ := try_insert_ok_spec ht
      rw [hh] at hh'
      cases hh'
    · show a'.items.length = 2 * a.items.length
      rw [try_insert_length ht, reserve_length]
      omega
  · intro n a0 vs w h0 hlen
    have hInv0 := with_capacity_inv h0
    have hlive0 := liveCount_with_capacity h0
    have hcap0 : a0.items.length = n := by
      unfold Arena.with_capacity at h0
      by_cases hn : 0 < n
      · rw [if_pos hn, Option.some.injEq] at h0
        subst h0
        rw [reserve_length]
        simp
      · rw [if_neg hn] at h0
        cases h0
    obtain ⟨aN, hseq, hInvN, hlenN, hliveN⟩ :=
      insertSeq_fits vs a0 hInv0 (by omega)
    have hfull : liveCount aN.items = aN.items.length := by omega
    obtain ⟨aF, idxF, hinsF, hlenF⟩ := insert_full_step aN hInvN hfull w
    refine ⟨aN, aF, idxF, hseq, by show aN.items.length = n; omega, hinsF, ?_⟩
    show aF.items.length = 2 * n
    omega

/-- Witness for C7: a full one-slot arena doubles to capacity 2. -/
theorem C7_witness :
    (⟨[Entry.Occupied 0 7], 0, none⟩ : Arena Nat).free_list_head = none ∧
    (⟨[Entry.Occupied 0 7], 0, none⟩ : Arena Nat).insert 9 =
      some (⟨[Entry.Occupied 0 7, Entry.Occupied 0 9], 0, none⟩, ⟨1, 0⟩) ∧
    (⟨[Entry.Occupied 0 7, Entry.Occupied 0 9], 0, none⟩ : Arena Nat).capacity =
      2 * (⟨[Entry.Occupied 0 7], 0, none⟩ : Arena Nat).capacity :=
  ⟨rfl, by decide,
    (@C7_insert_growth Nat).2.1 (⟨[Entry.Occupied 0 7], 0, none⟩ : Arena Nat)
      (⟨[Entry.Occupied 0 7, Entry.Occupied 0 9], 0, none⟩ : Arena Nat) 9 ⟨1, 0⟩
      rfl (by decide)⟩

/-- C2: once `remove(i)` has returned a value, every later `get(i)`,
`get_mut(i)` and `contains(i)` reports absent/false and every later
`remove(i)` returns no value and changes nothing, across arbitrary
intervening operations; and any index `i2` issued later by `try_insert`
or `insert` for the same position carries a strictly greater generation,
so `i2 ≠ i`, `get(i2)` yields the new value and `get(i)` stays absent. -/
theorem C2_invalidation {T : Type} (a a1 a2 : Arena T) (i : Index) (v : T)
    (hre : ReachableA a)
    (hr : a.remove i = some (a1, some v))
    (hs : Relation.ReflTransGen StepA a1 a2) :
    a2.get i = some none ∧
    a2.get_mut i = some none ∧
    a2.contains i = some false ∧
    a2.remove i = some (a2, none) ∧
    (∀ (a3 : Arena T) (w : T) (i2 : Index), a2.try_insert w = some (a3, .ok i2) →
      i2.index = i.index →
        i.generation < i2.generation ∧ i2 ≠ i ∧
        a3.get i2 = some (some w) ∧ a3.get i = some none) ∧
    (∀ (a3 : Arena T) (w : T) (i2 : Index), a2.insert w = some (a3, i2) →
      i2.index = i.index →
        i.generation < i2.generation ∧ i2 ≠ i ∧
        a3.get i2 = some (some w) ∧ a3.get i = some none) := by
  have hexp1 : Expired a1 i := remove_some_expired hre.genLe hr
  have hexp2 : Expired a2 i := hexp1.reach hs
  have hlt : i.index < a.items.length := (List.get?_eq_some.1 (remove_some_spec hr).1).1
  have hlt1 : i.index < a1.items.length := by
    rw [remove_length hr]
    exact hlt
  have hlt2 : i.index < a2.items.length := Nat.lt_of_lt_of_le hlt1 (reach_len_le hs)
  have hne : ∀ i2 : Index, i.generation < i2.generation → i2 ≠ i := by
    intro i2 hgen he
    rw [he] at hgen
    exact Nat.lt_irrefl _ hgen
  refine ⟨expired_get hexp2 hlt2, expired_get_mut hexp2 hlt2, ?_,
    expired_remove hexp2 hlt2, ?_, ?_⟩
  · rw [Arena.contains, expired_get hexp2 hlt2]
    rfl
  · intro a3 w i2 htr hpos
    have hgen2 : i2.generation = a2.generation := (try_insert_ok_spec htr).choose_spec.2.2.1
    have hgt : i.generation < i2.generation := by
      rw [hgen2]
      exact hexp2.1
    have hexp3 : Expired a3 i := hexp2.along_step (StepA.tin htr)
    have hlt3 : i.index < a3.items.length := by
      rw [try_insert_length htr]
      exact hlt2
    exact ⟨hgt, hne i2 hgt, try_insert_get htr, expired_get hexp3 hlt3⟩
  · intro a3 w i2 hins hpos
    have hgen2 : i2.generation = a2.generation := by
      rcases insert_decomp hins with ht | ⟨-, ht⟩
      · exact (try_insert_ok_spec ht).choose_spec.2.2.1
      · exact ((try_insert_ok_spec ht).choose_spec.2.2.1).trans
          (reserve_generation a2 a2.items.length)
    have hgt : i.generation < i2.generation := by
      rw [hgen2]
      exact hexp2.1
    have hexp3 : Expired a3 i := hexp2.along_step (StepA.ins hins)
    have hlt3 : i.index < a3.items.length :=
      Nat.lt_of_lt_of_le hlt2 (StepA.ins hins).len_le
    exact ⟨hgt, hne i2 hgt, insert_get hins, expired_get hexp3 hlt3⟩

/-- Witness for C2 on a concrete insert/remove run. -/
theorem C2_witness :
    (⟨[Entry.Occupied 0 10], 0, none⟩ : Arena Nat).remove ⟨0, 0⟩ =
      some (⟨[Entry.Free none], 1, some 0⟩, some 10) ∧
    (⟨[Entry.Free none], 1, some 0⟩ : Arena Nat).get ⟨0, 0⟩ = some none :=
  ⟨by decide,
    (C2_invalidation (⟨[Entry.Occupied 0 10], 0, none⟩ : Arena Nat)
      (⟨[Entry.Free none], 1, some 0⟩ : Arena Nat)
      (⟨[Entry.Free none], 1, some 0⟩ : Arena Nat) ⟨0, 0⟩ 10
      ⟨1, ⟨[Entry.Free none], 0, some 0⟩, by decide,
        Relation.ReflTransGen.single
          (StepA.ins (by decide :
            (⟨[Entry.Free none], 0, some 0⟩ : Arena Nat).insert 10 =
              some (⟨[Entry.Occupied 0 10], 0, none⟩, ⟨0, 0⟩)))⟩
      (by decide) Relation.ReflTransGen.refl).1⟩

end GArena

-- Concrete evaluations of the embedded operations, matching hand-traced
-- runs of the source.
open GArena in
example : (Arena.with_capacity 1 : Option (Arena Nat)) =
    some ⟨[Entry.Free none], 0, some 0⟩ := by decide

open GArena in
example : (Arena.with_capacity 2 : Option (Arena Nat)) =
    some ⟨[Entry.Free (some 1), Entry.Free none], 0, some 0⟩ := by decide

open GArena in
example : ((⟨[Entry.Free none], 0, some 0⟩ : Arena Nat).reserve 0) =
    ⟨[Entry.Free none], 0, some 1⟩ := by decide

open GArena in
example : ((⟨[Entry.Free none], 0, some 0⟩ : Arena Nat).reserve 0).insert 5 = none := by
  decide

open GArena in
example : (⟨[Entry.Free none], 0, some 0⟩ : Arena Nat).insert 7 =
    some (⟨[Entry.Occupied 0 7], 0, none⟩, ⟨0, 0⟩) := by decide

open GArena in
example : (⟨[Entry.Occupied 0 7], 0, none⟩ : Arena Nat).insert 8 =
    some (⟨[Entry.Occupied 0 7, Entry.Occupied 0 8], 0, none⟩, ⟨1, 0⟩) := by decide

open GArena in
example : (⟨[Entry.Occupied 0 7], 0, none⟩ : Arena Nat).remove ⟨0, 0⟩ =
    some (⟨[Entry.Free none], 1, some 0⟩, some 7) := by decide
